import Mathlib

/-!
Verification of the csslex CSS lexer (lex.go).

The Go source works on a string of bytes; `next` decodes one UTF-8 code
point ("rune") at the current byte offset.  We embed the input as a
`List Nat` of byte values and runes as `Int`, with `-1` playing the role
of the `eof` sentinel, exactly as in the source.

The internal loops of the lexer (`untilRun`, `ignoreSpace`, and the
scanning loop of `lexAny`) each advance the byte cursor by at least one
byte per iteration (or hit end of input and stop at the next test), so
their iteration count is bounded by `input.length + 2`.  We realize them
by structural recursion on a gas counter initialized to that bound; the
gas never reaches zero before the loop's own exit condition fires, so
the functions agree with the Go loops on every state.

The top-level driver (`run` in lex.go) is NOT terminating for every
input (for example on `a{b:1;` the lexer re-reads the final `;`
forever), so the driver takes explicit fuel counting state-function
invocations and reports whether the run reached the `nil` state
(channel closed) within the fuel.
-/

namespace Csslex

/-- Item types emitted by the lexer (the `ItemType` constants of lex.go). -/
inductive ItemType : Type where
  | error
  | selector
  | decl
  | blockStart
  | blockEnd
  | atRuleIdent
  | atRule
  | atRuleBlockStart
  | atRuleBlockEnd
deriving DecidableEq, Repr

/-- `Item` is an atom of the lexing process: `Item{Typ, Pos, Val}` of lex.go.
`val` is the byte string sent on the channel. -/
structure Item : Type where
  typ : ItemType
  pos : Nat
  val : List Nat
deriving DecidableEq, Repr

/-- Tags for the state functions of lex.go (`stateFn`). -/
inductive S : Type where
  | any
  | comment
  | selector
  | block
  | atRuleIdent
  | atRule
deriving DecidableEq, Repr

/-- The lexer state (struct `lexer` of lex.go).  The `items` channel is
modelled as the list of items emitted so far, in order.  `state` holds the
previously executed state function (`l.state`), `none` standing for Go's
`nil`. -/
structure Lexer : Type where
  input : List Nat
  start : Nat := 0
  pos : Nat := 0
  inBlock : Bool := false
  inAtBlock : Bool := false
  state : Option S := none
  items : List Item := []
deriving DecidableEq, Repr

/-! ### Byte and rune utilities (package strings / unicode-utf8) -/

/-- UTF-8 encoding of one code point (used only to build concrete inputs,
mirroring Go source text being UTF-8). -/
def utf8Enc (c : Nat) : List Nat :=
  if c < 0x80 then [c]
  else if c < 0x800 then [0xC0 + c / 64, 0x80 + c % 64]
  else if c < 0x10000 then [0xE0 + c / 4096, 0x80 + c / 64 % 64, 0x80 + c % 64]
  else [0xF0 + c / 262144, 0x80 + c / 4096 % 64, 0x80 + c / 64 % 64, 0x80 + c % 64]

/-- The UTF-8 bytes of a Lean string, for writing concrete inputs. -/
def strBytes (s : String) : List Nat :=
  s.data.flatMap (fun c => utf8Enc c.toNat)

/-- Size and continuation-byte bounds keyed by the first byte of a UTF-8
sequence: the `first`/`acceptRanges` tables of Go's unicode/utf8 package
(`none` = invalid first byte `xx`).  Only called with `b ≥ 0x80`. -/
def utf8First (b : Nat) : Option (Nat × Nat × Nat) :=
  if b < 0xC2 then none
  else if b ≤ 0xDF then some (2, 0x80, 0xBF)
  else if b = 0xE0 then some (3, 0xA0, 0xBF)
  else if b ≤ 0xEC then some (3, 0x80, 0xBF)
  else if b = 0xED then some (3, 0x80, 0x9F)
  else if b ≤ 0xEF then some (3, 0x80, 0xBF)
  else if b = 0xF0 then some (4, 0x90, 0xBF)
  else if b ≤ 0xF3 then some (4, 0x80, 0xBF)
  else if b = 0xF4 then some (4, 0x80, 0x8F)
  else none

/-- `utf8.DecodeRuneInString`: decode the first rune of a byte string,
returning the rune and the number of bytes consumed.  Invalid encodings
give `(0xFFFD, 1)`; the empty string gives `(0xFFFD, 0)`, as in Go. -/
def decodeRune (bs : List Nat) : Int × Nat :=
  match bs with
  | [] => (0xFFFD, 0)
  | b0 :: rest =>
    if b0 < 0x80 then (Int.ofNat b0, 1)
    else
      match utf8First b0 with
      | none => (0xFFFD, 1)
      | some (sz, lo, hi) =>
        if bs.length < sz then (0xFFFD, 1)
        else
          match rest with
          | [] => (0xFFFD, 1)
          | b1 :: rest2 =>
            if b1 < lo ∨ hi < b1 then (0xFFFD, 1)
            else if sz = 2 then (Int.ofNat ((b0 % 32) * 64 + b1 % 64), 2)
            else
              match rest2 with
              | [] => (0xFFFD, 1)
              | b2 :: rest3 =>
                if b2 < 0x80 ∨ 0xBF < b2 then (0xFFFD, 1)
                else if sz = 3 then
                  (Int.ofNat ((b0 % 16) * 4096 + (b1 % 64) * 64 + b2 % 64), 3)
                else
                  match rest3 with
                  | [] => (0xFFFD, 1)
                  | b3 :: _ =>
                    if b3 < 0x80 ∨ 0xBF < b3 then (0xFFFD, 1)
                    else
                      (Int.ofNat ((b0 % 8) * 262144 + (b1 % 64) * 4096 +
                        (b2 % 64) * 64 + b3 % 64), 4)

/-- lex.go constant `spaceChars = " \t\n\r"` as bytes. -/
def spaceBytes : List Nat := [32, 9, 10, 13]

/-- Byte membership in `spaceChars`. -/
def isSpaceByte (b : Nat) : Bool :=
  b = 32 || b = 9 || b = 10 || b = 13

/-- `strings.IndexRune(spaceChars, r) >= 0`: since the cutset is ASCII,
this holds exactly when the rune is one of the four space code points
(false for `eof = -1`). -/
def isSpaceRune (r : Int) : Bool :=
  r = 32 || r = 9 || r = 10 || r = 13

/-- `strings.IndexRune(chars, r) >= 0` for the ASCII stop-sets used by
`untilRun` (`",{"`, `";}"`, `";{"`). -/
def runeIn (chars : List Nat) (r : Int) : Bool :=
  chars.any (fun b => Int.ofNat b = r)

/-- `strings.HasPrefix`-style test: `pat` begins byte string `s`. -/
def leadsWith : List Nat → List Nat → Bool
  | [], _ => true
  | _ :: _, [] => false
  | a :: as, b :: bs => a = b && leadsWith as bs

/-- `strings.Index(s, sub)`: offset of the first occurrence of `sub` in
`s`, or `none` (Go: `-1`). -/
def indexOfSub (s sub : List Nat) : Option Nat :=
  if leadsWith sub s then some 0
  else
    match s with
    | [] => none
    | _ :: t => (indexOfSub t sub).map (fun n => n + 1)

/-- `strings.IndexRune(s, ' ')`-style search for a single ASCII byte. -/
def indexOfByte : List Nat → Nat → Option Nat
  | [], _ => none
  | a :: t, b => if a = b then some 0 else (indexOfByte t b).map (fun n => n + 1)

/-- `strings.Trim(s, spaceChars)`: the cutset is ASCII, so trimming runes
from both ends is trimming bytes from the space set from both ends. -/
def trimSpace (bs : List Nat) : List Nat :=
  ((bs.dropWhile isSpaceByte).reverse.dropWhile isSpaceByte).reverse

/-! ### Cursor primitives (methods of `lexer`) -/

/-- The rune at byte offset `pos` and the offset after it: method `next`
of lex.go.  Returns `(-1, pos)` (`eof`, no movement) at end of input. -/
def nextRune (input : List Nat) (pos : Nat) : Int × Nat :=
  if input.length ≤ pos then (-1, pos)
  else
    let rw := decodeRune (input.drop pos)
    (rw.1, pos + rw.2)

/-- Method `next` on the lexer state. -/
def Lexer.next (l : Lexer) : Int × Lexer :=
  let rp := nextRune l.input l.pos
  (rp.1, { l with pos := rp.2 })

/-- Method `backup` of lex.go: `l.pos--` (one byte, whatever the width of
the rune that was consumed). -/
def Lexer.backup (l : Lexer) : Lexer :=
  { l with pos := l.pos - 1 }

/-- Method `ignore` of lex.go. -/
def Lexer.ignore (l : Lexer) : Lexer :=
  { l with start := l.pos }

/-- The pending span `l.input[l.start:l.pos]`. -/
def Lexer.span (l : Lexer) : List Nat :=
  (l.input.drop l.start).take (l.pos - l.start)

/-- Method `emit` of lex.go: send `Item{t, l.start, Trim(span, spaceChars)}`
and set `start = pos`. -/
def Lexer.emit (l : Lexer) (t : ItemType) : Lexer :=
  { l with items := l.items ++ [⟨t, l.start, trimSpace l.span⟩], start := l.pos }

/-- Method `errorf` of lex.go: send `Item{ItemError, l.start, message}`.
(The caller returns `nil` as the next state.) -/
def Lexer.errorf (l : Lexer) (msg : List Nat) : Lexer :=
  { l with items := l.items ++ [⟨ItemType.error, l.start, msg⟩] }

/-- The loop of method `ignoreSpace`: keep calling `next` while the rune
is a space; returns the byte offset after the first non-space read (the
offset is unchanged if that read was `eof`).  Gas-recursive; one
iteration consumes one byte, so `input.length + 2` gas never runs out. -/
def spaceLoopAux : Nat → List Nat → Nat → Nat
  | 0, _, pos => pos
  | gas + 1, input, pos =>
    let rp := nextRune input pos
    if isSpaceRune rp.1 then spaceLoopAux gas input rp.2 else rp.2

/-- The `ignoreSpace` scan with its gas bound supplied. -/
def spaceLoop (input : List Nat) (pos : Nat) : Nat :=
  spaceLoopAux (input.length + 2) input pos

/-- Method `ignoreSpace` of lex.go: the space loop, then `backup`, then
`ignore`.  (Note: when the loop stops at end of input, the `backup`
still moves `pos` back one byte — the Go code's behavior.) -/
def ignoreSpaceL (l : Lexer) : Lexer :=
  let p := spaceLoop l.input l.pos - 1
  { l with pos := p, start := p }

/-- The deferred `l.next(); l.ignoreSpace()` that `lexSelector`,
`lexBlock` and `lexAtRule` run on the way out. -/
def nextIgnoreSpace (l : Lexer) : Lexer :=
  ignoreSpaceL { l with pos := (nextRune l.input l.pos).2 }

/-- The loop of method `untilRun`: starting from Go's zero-value rune
`r = 0`, call `next` until `r == eof` or `r` is in `chars`; returns the
final `r` and the byte offset (before the trailing `backup`). -/
def untilLoopAux : Nat → List Nat → List Nat → Int → Nat → Int × Nat
  | 0, _, _, r, pos => (r, pos)
  | gas + 1, input, chars, r, pos =>
    if r ≠ -1 ∧ runeIn chars r = false then
      let rp := nextRune input pos
      untilLoopAux gas input chars rp.1 rp.2
    else (r, pos)

/-- Method `untilRun` of lex.go: the scan loop followed by `backup`. -/
def Lexer.untilRun (l : Lexer) (chars : List Nat) : Int × Lexer :=
  let rp := untilLoopAux (l.input.length + 2) l.input chars 0 l.pos
  (rp.1, { l with pos := rp.2 - 1 })

/-! ### Constants of lex.go -/

def openComment : List Nat := [47, 42]
def closeComment : List Nat := [42, 47]
def selChars : List Nat := [44, 123]
def blockChars : List Nat := [59, 125]
def atChars : List Nat := [59, 123]
def errUnclosedComment : List Nat := strBytes "unclosed comment"
def errUnclosedBlock : List Nat := strBytes "unclosed block"
def errMissingAtRuleIdent : List Nat := strBytes "missing at-rule ident"
def errMissingAtRuleBody : List Nat := strBytes "missing at-rule body"

/-! ### State functions -/

/-- The loop body of `lexAny`: read a rune; `eof` → terminate; space →
`ignore` and loop; `}` while `inAtBlock && !inBlock` → clear `inAtBlock`,
`ignore`, emit `AtRuleBlockEnd`, loop; otherwise `backup` and dispatch on
a `/*` prefix, `@`, or anything else.  Gas-recursive: every loop
iteration consumes at least one byte. -/
def lexAnyAux : Nat → Lexer → Lexer × Option S
  | 0, l => (l, none)
  | gas + 1, l =>
    let r := (nextRune l.input l.pos).1
    let l1 : Lexer := { l with pos := (nextRune l.input l.pos).2 }
    if r = -1 then (l1, none)
    else if isSpaceRune r then lexAnyAux gas l1.ignore
    else if r = 125 ∧ l1.inAtBlock = true ∧ l1.inBlock = false then
      lexAnyAux gas ((({ l1 with inAtBlock := false }).ignore).emit ItemType.atRuleBlockEnd)
    else
      let l2 := l1.backup
      if leadsWith openComment (l2.input.drop l2.pos) then (l2, some S.comment)
      else if r = 64 then (l2, some S.atRuleIdent)
      else (l2, some S.selector)

/-- State function `lexAny` of lex.go. -/
def lexAny (l : Lexer) : Lexer × Option S :=
  lexAnyAux (l.input.length + 2) l

/-- State function `lexComment` of lex.go: skip `/*`, find `*/`; not
found → error "unclosed comment"; found → move past it, `ignore`, and
return the previously active state (`l.state`). -/
def lexComment (l : Lexer) : Lexer × Option S :=
  let l1 : Lexer := { l with pos := l.pos + 2 }
  match indexOfSub (l1.input.drop l1.pos) closeComment with
  | none => (l1.errorf errUnclosedComment, none)
  | some i => ((({ l1 with pos := l1.pos + i + 2 } : Lexer)).ignore, l.state)

/-- State function `lexSelector` of lex.go. -/
def lexSelector (l : Lexer) : Lexer × Option S :=
  let rl := l.untilRun selChars
  let r := rl.1
  let l1 := rl.2
  if r = -1 then (l1, none)
  else if r = 44 then (nextIgnoreSpace (l1.emit ItemType.selector), some S.selector)
  else
    let l2 := l1.emit ItemType.selector
    let l3 := ({ l2 with inBlock := true } : Lexer).emit ItemType.blockStart
    (nextIgnoreSpace l3, some S.block)

/-- State function `lexBlock` of lex.go. -/
def lexBlock (l : Lexer) : Lexer × Option S :=
  let rl := l.untilRun blockChars
  let r := rl.1
  let l1 := rl.2
  if r = -1 then (l1.errorf errUnclosedBlock, none)
  else
    let l2 := if l1.span.any (fun b => b = 58) then l1.emit ItemType.decl else l1
    if r = 125 then
      let l3 := ({ l2 with inBlock := false } : Lexer).emit ItemType.blockEnd
      (nextIgnoreSpace l3, some S.any)
    else (nextIgnoreSpace l2, some S.block)

/-- State function `lexAtRuleIdent` of lex.go: find the first `' '` from
the current position (which is at the `@`); Go's `i < 1` means "not
found or found at offset 0". -/
def lexAtRuleIdent (l : Lexer) : Lexer × Option S :=
  match indexOfByte (l.input.drop l.pos) 32 with
  | none => (l.errorf errMissingAtRuleIdent, none)
  | some i =>
    if i < 1 then (l.errorf errMissingAtRuleIdent, none)
    else
      let l1 := ({ l with pos := l.pos + i } : Lexer).emit ItemType.atRuleIdent
      (ignoreSpaceL l1, some S.atRule)

/-- State function `lexAtRule` of lex.go. -/
def lexAtRule (l : Lexer) : Lexer × Option S :=
  let rl := l.untilRun atChars
  let r := rl.1
  let l1 := rl.2
  if r = -1 then (l1.errorf errMissingAtRuleBody, none)
  else if r = 123 then
    let l2 := ({ l1 with inAtBlock := true } : Lexer).emit ItemType.atRuleBlockStart
    (nextIgnoreSpace l2, some S.selector)
  else (nextIgnoreSpace (l1.emit ItemType.atRule), some S.any)

/-- Dispatch a state tag to its state function. -/
def stepState : S → Lexer → Lexer × Option S
  | S.any, l => lexAny l
  | S.comment, l => lexComment l
  | S.selector, l => lexSelector l
  | S.block, l => lexBlock l
  | S.atRuleIdent, l => lexAtRuleIdent l
  | S.atRule, l => lexAtRule l

/-- The driver loop of method `run` in lex.go, with fuel counting state
function invocations.  Returns the emitted items and whether the run
reached the `nil` state (the channel was closed) within the fuel. -/
def runLoop : Nat → Option S → Lexer → List Item × Bool
  | _, none, l => (l.items, true)
  | 0, some _, l => (l.items, false)
  | Nat.succ fuel, some s, l =>
    let r := stepState s l
    runLoop fuel r.2 { r.1 with state := some s }

/-- A fresh lexer over the given input (function `Lex` of lex.go). -/
def initLexer (bs : List Nat) : Lexer :=
  { input := bs }

/-- Fuel that is ample for every input considered in concrete runs. -/
def lexFuel (bs : List Nat) : Nat :=
  2 * bs.length + 8

/-- Run the lexer on an input: the items sent on the channel, and whether
the run terminated within `lexFuel`. -/
def lexGo (bs : List Nat) : List Item × Bool :=
  runLoop (lexFuel bs) (some S.any) (initLexer bs)

/-- Inputs made of space characters and properly closed comments only: a
comment is `/*` + body + `*/` where the body does not itself contain the
closing marker (otherwise the comment would end earlier). -/
inductive BlankInput : List Nat → Prop where
  | nil : BlankInput []
  | space (b : Nat) (rest : List Nat) :
      isSpaceByte b = true → BlankInput rest → BlankInput (b :: rest)
  | comment (body rest : List Nat) :
      indexOfSub body closeComment = none → BlankInput rest →
      BlankInput (openComment ++ body ++ closeComment ++ rest)

/-! ### Projection lemmas for the cursor primitives -/

@[simp]
theorem untilRun_items (l : Lexer) (chars : List Nat) :
    ((l.untilRun chars).2).items = l.items := rfl

@[simp]
theorem untilRun_start (l : Lexer) (chars : List Nat) :
    ((l.untilRun chars).2).start = l.start := rfl

@[simp]
theorem untilRun_input (l : Lexer) (chars : List Nat) :
    ((l.untilRun chars).2).input = l.input := rfl

@[simp]
theorem untilRun_inBlock (l : Lexer) (chars : List Nat) :
    ((l.untilRun chars).2).inBlock = l.inBlock := rfl

@[simp]
theorem untilRun_inAtBlock (l : Lexer) (chars : List Nat) :
    ((l.untilRun chars).2).inAtBlock = l.inAtBlock := rfl

@[simp]
theorem emit_items (l : Lexer) (t : ItemType) :
    (l.emit t).items = l.items ++ [⟨t, l.start, trimSpace l.span⟩] := rfl

@[simp]
theorem errorf_items (l : Lexer) (msg : List Nat) :
    (l.errorf msg).items = l.items ++ [⟨ItemType.error, l.start, msg⟩] := rfl

@[simp]
theorem nextIgnoreSpace_items (l : Lexer) :
    (nextIgnoreSpace l).items = l.items := rfl

@[simp]
theorem ignoreSpaceL_items (l : Lexer) :
    (ignoreSpaceL l).items = l.items := rfl

@[simp]
theorem ignore_items (l : Lexer) : (l.ignore).items = l.items := rfl

@[simp]
theorem backup_items (l : Lexer) : (l.backup).items = l.items := rfl

/-- `emit` right after `start = pos` was set yields an empty value: the
span `[pos, pos)` is empty and trims to nothing. -/
theorem emit_fresh_val (l : Lexer) (h : l.start = l.pos) (t : ItemType) :
    (l.emit t).items = l.items ++ [⟨t, l.start, []⟩] := by
  simp [Lexer.emit, Lexer.span, h, trimSpace]

/-! ### The items appended by a single state-function invocation -/

/-- `lexAnyAux` only ever appends `AtRuleBlockEnd` items with empty value,
and appends none at all unless it starts with `inAtBlock` set and
`inBlock` clear. -/
theorem lexAnyAux_delta (gas : Nat) (l : Lexer) :
    ∃ δ, (lexAnyAux gas l).1.items = l.items ++ δ ∧
      (∀ it ∈ δ, it.typ = ItemType.atRuleBlockEnd ∧ it.val = []) ∧
      ((l.inAtBlock = false ∨ l.inBlock = true) → δ = []) := by
  induction gas generalizing l with
  | zero => exact ⟨[], by simp [lexAnyAux], by simp, fun _ => rfl⟩
  | succ gas ih =>
    by_cases h1 : (nextRune l.input l.pos).1 = -1
    · exact ⟨[], by simp [lexAnyAux, h1], by simp, fun _ => rfl⟩
    · by_cases h2 : isSpaceRune (nextRune l.input l.pos).1 = true
      · obtain ⟨δ, hδ, hall, hflag⟩ :=
          ih (({ l with pos := (nextRune l.input l.pos).2 } : Lexer).ignore)
        refine ⟨δ, ?_, hall, ?_⟩
        · simpa [lexAnyAux, h1, h2] using hδ
        · intro h; exact hflag (by simpa [Lexer.ignore] using h)
      · by_cases h3 : (nextRune l.input l.pos).1 = 125 ∧ l.inAtBlock = true ∧
            l.inBlock = false
        · set l1 : Lexer := { l with pos := (nextRune l.input l.pos).2 } with hl1
          set l2 : Lexer :=
            (({ l1 with inAtBlock := false } : Lexer).ignore).emit
              ItemType.atRuleBlockEnd with hl2
          obtain ⟨δ, hδ, hall, hflag⟩ := ih l2
          have hδnil : δ = [] := hflag (Or.inl rfl)
          subst hδnil
          refine ⟨[⟨ItemType.atRuleBlockEnd, l1.pos, []⟩], ?_, by simp, ?_⟩
          · have hstep : lexAnyAux (gas + 1) l = lexAnyAux gas l2 := by
              simp only [lexAnyAux, h1, h2]
              simp [h3, hl2, hl1]
            rw [hstep, hδ, hl2]
            rw [emit_fresh_val _ (by simp [Lexer.ignore]) _]
            simp [Lexer.ignore]
          · rintro (hf | hf)
            · exact absurd h3.2.1 (by simp [hf])
            · exact absurd h3.2.2 (by simp [hf])
        · refine ⟨[], ?_, by simp, fun _ => rfl⟩
          simp only [lexAnyAux, h1, h2, h3]
          repeat' split
          all_goals simp_all [Lexer.backup]

/-- One invocation of a state function appends a block `δ` of items in
which every `BlockStart` has empty value, an `Error` occurs only as the
last item, no `Error` is appended if the machine continues, and no
`AtRuleBlockEnd` is appended unless the invocation began with
`inAtBlock` set and `inBlock` clear. -/
theorem stepDelta (s : S) (l : Lexer) :
    ∃ δ, (stepState s l).1.items = l.items ++ δ ∧
      (∀ it ∈ δ, it.typ = ItemType.blockStart → it.val = []) ∧
      (∀ it ∈ δ.dropLast, it.typ ≠ ItemType.error) ∧
      ((stepState s l).2 ≠ none → ∀ it ∈ δ, it.typ ≠ ItemType.error) ∧
      ((l.inAtBlock = false ∨ l.inBlock = true) →
        ∀ it ∈ δ, it.typ ≠ ItemType.atRuleBlockEnd) := by
  cases s with
  | any =>
    obtain ⟨δ, hδ, hall, hflag⟩ := lexAnyAux_delta (l.input.length + 2) l
    refine ⟨δ, hδ, ?_, ?_, ?_, ?_⟩
    · intro it hit h
      have htyp := (hall it hit).1
      rw [h] at htyp
      exact absurd htyp (by simp)
    · intro it hit
      have htyp := (hall it (List.dropLast_subset _ hit)).1
      simp [htyp]
    · intro _ it hit
      have htyp := (hall it hit).1
      simp [htyp]
    · intro h it hit
      rw [hflag h] at hit
      simp at hit
  | comment =>
    simp only [stepState, lexComment]
    split
    · exact ⟨[⟨ItemType.error, l.start, errUnclosedComment⟩], by simp,
        by simp, by simp, by simp, by simp⟩
    · exact ⟨[], by simp [Lexer.ignore], by simp, by simp, by simp, by simp⟩
  | selector =>
    simp only [stepState, lexSelector]
    by_cases h1 : (l.untilRun selChars).1 = -1
    · simp only [if_pos h1]
      exact ⟨[], by simp, by simp, by simp, by simp, by simp⟩
    · by_cases h2 : (l.untilRun selChars).1 = 44
      · simp only [if_neg h1, if_pos h2]
        exact ⟨[⟨ItemType.selector, l.start,
          trimSpace ((l.untilRun selChars).2.span)⟩],
          by simp, by simp, by simp, by simp, by simp⟩
      · simp only [if_neg h1, if_neg h2]
        refine ⟨[⟨ItemType.selector, l.start,
          trimSpace ((l.untilRun selChars).2.span)⟩,
          ⟨ItemType.blockStart, (l.untilRun selChars).2.pos, []⟩],
          ?_, by simp, by simp, by simp, by simp⟩
        simp [Lexer.emit, Lexer.span, trimSpace]
  | block =>
    simp only [stepState, lexBlock]
    by_cases h1 : (l.untilRun blockChars).1 = -1
    · simp only [if_pos h1]
      exact ⟨[⟨ItemType.error, l.start, errUnclosedBlock⟩], by simp,
        by simp, by simp, by simp, by simp⟩
    · simp only [if_neg h1]
      by_cases hc : ((l.untilRun blockChars).2.span.any (fun b => b = 58)) = true
      · by_cases h2 : (l.untilRun blockChars).1 = 125
        · simp only [if_pos hc, if_pos h2]
          refine ⟨[⟨ItemType.decl, l.start,
            trimSpace ((l.untilRun blockChars).2.span)⟩,
            ⟨ItemType.blockEnd, (l.untilRun blockChars).2.pos, []⟩],
            ?_, by simp, by simp, by simp, by simp⟩
          simp [Lexer.emit, Lexer.span, trimSpace]
        · simp only [if_pos hc, if_neg h2]
          exact ⟨[⟨ItemType.decl, l.start,
            trimSpace ((l.untilRun blockChars).2.span)⟩],
            by simp, by simp, by simp, by simp, by simp⟩
      · by_cases h2 : (l.untilRun blockChars).1 = 125
        · simp only [if_neg hc, if_pos h2]
          exact ⟨[⟨ItemType.blockEnd, l.start,
            trimSpace ((l.untilRun blockChars).2.span)⟩],
            by simp [Lexer.emit, Lexer.span], by simp, by simp, by simp, by simp⟩
        · simp only [if_neg hc, if_neg h2]
          exact ⟨[], by simp, by simp, by simp, by simp, by simp⟩
  | atRuleIdent =>
    simp only [stepState, lexAtRuleIdent]
    split
    · exact ⟨[⟨ItemType.error, l.start, errMissingAtRuleIdent⟩], by simp,
        by simp, by simp, by simp, by simp⟩
    · rename_i i heq
      by_cases hi : i < 1
      · simp only [if_pos hi]
        exact ⟨[⟨ItemType.error, l.start, errMissingAtRuleIdent⟩], by simp,
          by simp, by simp, by simp, by simp⟩
      · simp only [if_neg hi]
        exact ⟨[⟨ItemType.atRuleIdent, l.start,
          trimSpace (({ l with pos := l.pos + i } : Lexer).span)⟩],
          by simp [Lexer.emit], by simp, by simp, by simp, by simp⟩
  | atRule =>
    simp only [stepState, lexAtRule]
    by_cases h1 : (l.untilRun atChars).1 = -1
    · simp only [if_pos h1]
      exact ⟨[⟨ItemType.error, l.start, errMissingAtRuleBody⟩], by simp,
        by simp, by simp, by simp, by simp⟩
    · by_cases h2 : (l.untilRun atChars).1 = 123
      · simp only [if_neg h1, if_pos h2]
        exact ⟨[⟨ItemType.atRuleBlockStart, l.start,
          trimSpace ((l.untilRun atChars).2.span)⟩],
          by simp [Lexer.emit, Lexer.span], by simp, by simp, by simp, by simp⟩
      · simp only [if_neg h1, if_neg h2]
        exact ⟨[⟨ItemType.atRule, l.start,
          trimSpace ((l.untilRun atChars).2.span)⟩],
          by simp, by simp, by simp, by simp, by simp⟩

/-- Elements of `(a ++ b).dropLast` lie in `a` or in `b.dropLast`. -/
theorem mem_dropLast_append {α : Type} {a b : List α} {x : α}
    (h : x ∈ (a ++ b).dropLast) : x ∈ a ∨ x ∈ b.dropLast := by
  cases b with
  | nil =>
    rw [List.append_nil] at h
    exact Or.inl (List.dropLast_subset _ h)
  | cons y t =>
    rw [List.dropLast_append_cons] at h
    exact List.mem_append.mp h

/-- If every element but the last fails the predicate, the count is at
most one. -/
theorem countP_le_one_of_dropLast (p : Item → Bool) (xs : List Item)
    (h : ∀ it ∈ xs.dropLast, p it = false) :
    xs.countP p ≤ 1 := by
  rcases List.eq_nil_or_concat xs with rfl | ⟨ys, z, rfl⟩
  · simp
  · rw [List.concat_eq_append] at h ⊢
    rw [List.dropLast_concat] at h
    rw [List.countP_append]
    have h0 : ys.countP p = 0 := by
      rw [List.countP_eq_zero]
      intro a ha
      simp [h a ha]
    by_cases hz : p z = true <;> simp [h0, List.countP_cons, hz]

/-- Invariant of the driver loop: running preserves "no Error yet" in the
sense that Errors appear only in last position, and preserves "every
BlockStart has empty value". -/
theorem runLoop_inv (fuel : Nat) (os : Option S) (l : Lexer)
    (herr : ∀ it ∈ l.items, it.typ ≠ ItemType.error)
    (hbs : ∀ it ∈ l.items, it.typ = ItemType.blockStart → it.val = []) :
    (∀ it ∈ ((runLoop fuel os l).1).dropLast, it.typ ≠ ItemType.error) ∧
    (∀ it ∈ (runLoop fuel os l).1, it.typ = ItemType.blockStart → it.val = []) := by
  induction fuel generalizing os l with
  | zero =>
    cases os with
    | none => exact ⟨fun it hit => herr it (List.dropLast_subset _ hit), hbs⟩
    | some s => exact ⟨fun it hit => herr it (List.dropLast_subset _ hit), hbs⟩
  | succ fuel ih =>
    cases os with
    | none => exact ⟨fun it hit => herr it (List.dropLast_subset _ hit), hbs⟩
    | some s =>
      obtain ⟨δ, hδ, hbsδ, hdlδ, hcontδ, _⟩ := stepDelta s l
      have hunfold : runLoop (fuel + 1) (some s) l =
          runLoop fuel (stepState s l).2
            { (stepState s l).1 with state := some s } := rfl
      rw [hunfold]
      cases hs : (stepState s l).2 with
      | none =>
        have hitems : (runLoop fuel none
            { (stepState s l).1 with state := some s }).1 = l.items ++ δ := by
          cases fuel <;> simp [runLoop, hδ]
        rw [hitems]
        constructor
        · intro it hit
          rcases mem_dropLast_append hit with hmem | hmem
          · exact herr it hmem
          · exact hdlδ it hmem
        · intro it hit h
          rcases List.mem_append.mp hit with hmem | hmem
          · exact hbs it hmem h
          · exact hbsδ it hmem h
      | some s' =>
        have hδerr : ∀ it ∈ δ, it.typ ≠ ItemType.error :=
          hcontδ (by simp [hs])
        apply ih
        · intro it hit
          rcases List.mem_append.mp (by simpa [hδ] using hit) with hmem | hmem
          · exact herr it hmem
          · exact hδerr it hmem
        · intro it hit
          rcases List.mem_append.mp (by simpa [hδ] using hit) with hmem | hmem
          · exact hbs it hmem
          · exact hbsδ it hmem

/-! ### Claim theorems -/

/-- C2: lexing `a{b:1}c{d:2}` produces exactly the eight tokens
Selector "a", BlockStart, Declaration "b:1", BlockEnd, Selector "c",
BlockStart, Declaration "d:2", BlockEnd — in that order, with no Error
token, and the run terminates. -/
theorem lex_two_blocks_roundtrip :
    lexGo (strBytes "a{b:1}c{d:2}") =
      ([⟨ItemType.selector, 0, strBytes "a"⟩, ⟨ItemType.blockStart, 1, []⟩,
        ⟨ItemType.decl, 2, strBytes "b:1"⟩, ⟨ItemType.blockEnd, 5, []⟩,
        ⟨ItemType.selector, 6, strBytes "c"⟩, ⟨ItemType.blockStart, 7, []⟩,
        ⟨ItemType.decl, 8, strBytes "d:2"⟩, ⟨ItemType.blockEnd, 11, []⟩],
        true) := by
  decide

/-- C3: for every input and every fuel bound, the token stream contains
at most one Error item, and every item other than the last one is not an
Error (so an Error, if present, is the final token). -/
theorem error_is_last_and_unique (bs : List Nat) (fuel : Nat) :
    (∀ it ∈ ((runLoop fuel (some S.any) (initLexer bs)).1).dropLast,
      it.typ ≠ ItemType.error) ∧
    ((runLoop fuel (some S.any) (initLexer bs)).1).countP
      (fun it => decide (it.typ = ItemType.error)) ≤ 1 := by
  have h := runLoop_inv fuel (some S.any) (initLexer bs)
    (by simp [initLexer]) (by simp [initLexer])
  refine ⟨h.1, countP_le_one_of_dropLast _ _ ?_⟩
  intro it hit
  simpa using h.1 it hit

/-- C3 witness: on `a{b:1}` the Selector token lies before the last
token and is indeed not an Error. -/
theorem error_is_last_witness :
    (⟨ItemType.selector, 0, strBytes "a"⟩ : Item) ∈
      ((runLoop (lexFuel (strBytes "a{b:1}")) (some S.any)
        (initLexer (strBytes "a{b:1}"))).1).dropLast ∧
    (⟨ItemType.selector, 0, strBytes "a"⟩ : Item).typ ≠ ItemType.error :=
  ⟨by decide,
    (error_is_last_and_unique (strBytes "a{b:1}")
      (lexFuel (strBytes "a{b:1}"))).1 _ (by decide)⟩

/-- C1 counterexample: for input `a{b}` the claim "every BlockStart and
BlockEnd token has empty text" fails — the BlockEnd token carries the
text "b". -/
theorem blockEnd_text_counterexample :
    ¬ (∀ it ∈ (lexGo (strBytes "a{b}")).1,
        (it.typ = ItemType.blockStart ∨ it.typ = ItemType.blockEnd) →
          it.val = []) := by
  decide

/-- C1 (amended): every BlockStart token has empty text, for every input
and fuel; a BlockEnd token, however, carries the trimmed colon-less span
preceding its `}` when that span is nonempty: `a{b}` lexes to
Selector "a", BlockStart "", BlockEnd "b". -/
theorem blockStart_empty_blockEnd_carries_span :
    (∀ (bs : List Nat) (fuel : Nat),
      ∀ it ∈ (runLoop fuel (some S.any) (initLexer bs)).1,
        it.typ = ItemType.blockStart → it.val = []) ∧
    lexGo (strBytes "a{b}") =
      ([⟨ItemType.selector, 0, strBytes "a"⟩, ⟨ItemType.blockStart, 1, []⟩,
        ⟨ItemType.blockEnd, 2, strBytes "b"⟩], true) := by
  constructor
  · intro bs fuel it hit h
    exact (runLoop_inv fuel (some S.any) (initLexer bs)
      (by simp [initLexer]) (by simp [initLexer])).2 it hit h
  · decide

/-- C1 witness: the BlockStart token emitted on `a{b}` is in the output
and its value is empty. -/
theorem blockStart_empty_witness :
    (⟨ItemType.blockStart, 1, ([] : List Nat)⟩ : Item) ∈
      (runLoop (lexFuel (strBytes "a{b}")) (some S.any)
        (initLexer (strBytes "a{b}"))).1 ∧
    (⟨ItemType.blockStart, 1, ([] : List Nat)⟩ : Item).val = [] :=
  ⟨by decide,
    blockStart_empty_blockEnd_carries_span.1 (strBytes "a{b}")
      (lexFuel (strBytes "a{b}")) _ (by decide) rfl⟩

/-- C8: a state-function invocation that does not begin with `inAtBlock`
set and `inBlock` clear appends no AtRuleBlockEnd token; and concretely
`@media x{a{b:1}}` produces exactly one AtRuleBlockEnd, as its final
token (the inner block's `}` is consumed in the Block state as a
BlockEnd). -/
theorem atRuleBlockEnd_depth_zero_only :
    (∀ (s : S) (l : Lexer), (l.inAtBlock = false ∨ l.inBlock = true) →
      ∃ δ, (stepState s l).1.items = l.items ++ δ ∧
        ∀ it ∈ δ, it.typ ≠ ItemType.atRuleBlockEnd) ∧
    (lexGo (strBytes "@media x{a{b:1}}") =
      ([⟨ItemType.atRuleIdent, 0, strBytes "@media"⟩,
        ⟨ItemType.atRuleBlockStart, 7, strBytes "x"⟩,
        ⟨ItemType.selector, 9, strBytes "a"⟩,
        ⟨ItemType.blockStart, 10, []⟩,
        ⟨ItemType.decl, 11, strBytes "b:1"⟩,
        ⟨ItemType.blockEnd, 14, []⟩,
        ⟨ItemType.atRuleBlockEnd, 16, []⟩], true) ∧
      ((lexGo (strBytes "@media x{a{b:1}}")).1).countP
        (fun it => decide (it.typ = ItemType.atRuleBlockEnd)) = 1) := by
  refine ⟨?_, by decide, by decide⟩
  intro s l hfl
  obtain ⟨δ, hδ, _, _, _, harbe⟩ := stepDelta s l
  exact ⟨δ, hδ, harbe hfl⟩

/-- C8 witness: a fresh lexer has `inAtBlock` clear, and indeed the first
`lexAny` step on `a{b}` appends no AtRuleBlockEnd token. -/
theorem atRuleBlockEnd_depth_zero_witness :
    ((initLexer (strBytes "a{b}")).inAtBlock = false ∨
      (initLexer (strBytes "a{b}")).inBlock = true) ∧
    (∃ δ, (stepState S.any (initLexer (strBytes "a{b}"))).1.items =
        (initLexer (strBytes "a{b}")).items ++ δ ∧
      ∀ it ∈ δ, it.typ ≠ ItemType.atRuleBlockEnd) :=
  ⟨Or.inl rfl,
    atRuleBlockEnd_depth_zero_only.1 S.any (initLexer (strBytes "a{b}"))
      (Or.inl rfl)⟩

/-- C4 counterexample: on `@ x;` (the claim's "empty identifier" case —
the first space is one byte after the `@`) the lexer does NOT fail with
"missing at-rule ident": no Error token is produced at all. -/
theorem at_space_counterexample :
    ¬ (∃ it ∈ (lexGo (strBytes "@ x;")).1,
        it.typ = ItemType.error ∧ it.val = errMissingAtRuleIdent) := by
  decide

/-- C4 (amended): the AtRuleIdent state fails with "missing at-rule
ident" exactly in the "no space at all in the rest of the input" case —
Go's `i < 1` test runs with `i` measured from the `@` itself, so a space
can never be found at offset 0 and the "empty identifier" case does not
occur; `@ x;` (space at offset 1) lexes to AtRuleIdent "@" and
AtRuleBody "x" with no Error. -/
theorem missing_at_rule_ident_no_space :
    (∀ l : Lexer, indexOfByte (l.input.drop l.pos) 32 = none →
      (stepState S.atRuleIdent l).1.items =
        l.items ++ [⟨ItemType.error, l.start, errMissingAtRuleIdent⟩] ∧
      (stepState S.atRuleIdent l).2 = none) ∧
    lexGo (strBytes "@ x;") =
      ([⟨ItemType.atRuleIdent, 0, strBytes "@"⟩,
        ⟨ItemType.atRule, 2, strBytes "x"⟩], true) := by
  constructor
  · intro l h
    constructor <;> simp [stepState, lexAtRuleIdent, h]
  · decide

/-- C4 witness: a lexer over `@abc` (no space anywhere) satisfies the
hypothesis, and the step indeed appends the single Error token. -/
theorem missing_at_rule_ident_witness :
    indexOfByte ((initLexer (strBytes "@abc")).input.drop
      (initLexer (strBytes "@abc")).pos) 32 = none ∧
    (stepState S.atRuleIdent (initLexer (strBytes "@abc"))).1.items =
      (initLexer (strBytes "@abc")).items ++
        [⟨ItemType.error, (initLexer (strBytes "@abc")).start,
          errMissingAtRuleIdent⟩] :=
  ⟨by decide,
    (missing_at_rule_ident_no_space.1 (initLexer (strBytes "@abc"))
      (by decide)).1⟩

/-- C5: on the two-byte code point é (UTF-8 bytes C3 A9) `next` advances
`pos` by the full rune width 2, but `backup` (`l.pos--`) moves it back
by only one byte, leaving `pos = 1` instead of restoring 0. -/
theorem backup_one_byte_not_one_rune :
    ((Lexer.next (initLexer (strBytes "é"))).2).pos = 2 ∧
    (((Lexer.next (initLexer (strBytes "é"))).2).backup).pos = 1 := by
  constructor <;> decide

/-- C7: whenever the selector scan stops at end of input (`untilRun`
found no `,` or `{`), the run terminates cleanly with the items
unchanged — no Selector token for the trailing text and no Error,
whatever fuel remains. -/
theorem trailing_selector_dropped (l : Lexer) (fuel : Nat)
    (h : (l.untilRun selChars).1 = -1) :
    runLoop (fuel + 1) (some S.selector) l = (l.items, true) := by
  have hstep : stepState S.selector l = ((l.untilRun selChars).2, none) := by
    simp [stepState, lexSelector, h]
  show runLoop fuel (stepState S.selector l).2
    { (stepState S.selector l).1 with state := some S.selector } = (l.items, true)
  rw [hstep]
  cases fuel <;> simp [runLoop]

/-- C7 witness: on input `abc` (no `,` or `{`) the selector scan hits
end of input and the run ends with no tokens. -/
theorem trailing_selector_witness :
    ((initLexer (strBytes "abc")).untilRun selChars).1 = -1 ∧
    runLoop 1 (some S.selector) (initLexer (strBytes "abc")) = ([], true) :=
  ⟨by decide,
    trailing_selector_dropped (initLexer (strBytes "abc")) 0 (by decide)⟩

/-- C9: whenever the at-rule body scan stops at end of input (`untilRun`
found no `;` or `{`), the implementation always realizes the error
variant: exactly one Error token with text "missing at-rule body" is
appended and the run terminates. -/
theorem at_rule_body_eof_errors (l : Lexer) (fuel : Nat)
    (h : (l.untilRun atChars).1 = -1) :
    runLoop (fuel + 1) (some S.atRule) l =
      (l.items ++ [⟨ItemType.error, l.start, errMissingAtRuleBody⟩],
        true) := by
  have hstep : stepState S.atRule l =
      (((l.untilRun atChars).2).errorf errMissingAtRuleBody, none) := by
    simp [stepState, lexAtRule, h]
  show runLoop fuel (stepState S.atRule l).2
    { (stepState S.atRule l).1 with state := some S.atRule } = _
  rw [hstep]
  cases fuel <;> simp [runLoop]

/-- C9 witness: a lexer over `url(x)` (no `;` or `{`) satisfies the
hypothesis, and the run ends with the single "missing at-rule body"
Error token.  (The full input `@import url(x)` reaches exactly this
state after its AtRuleIdent is emitted.) -/
theorem at_rule_body_eof_witness :
    ((initLexer (strBytes "url(x)")).untilRun atChars).1 = -1 ∧
    runLoop 1 (some S.atRule) (initLexer (strBytes "url(x)")) =
      ([⟨ItemType.error, 0, errMissingAtRuleBody⟩], true) :=
  ⟨by decide,
    at_rule_body_eof_errors (initLexer (strBytes "url(x)")) 0 (by decide)⟩

/-- C10 counterexample: in `a{p: url(x;y)}` the remainder `y)` after the
inner `;` is NOT silently dropped — it is emitted as the text of a token
(the closing BlockEnd). -/
theorem url_semicolon_remainder_counterexample :
    ¬ (∀ it ∈ (lexGo (strBytes "a{p: url(x;y)}")).1,
        it.val ≠ strBytes "y)") := by
  decide

/-- C10 (amended): the declaration scan stops at every `;`/`}` with no
parenthesis awareness: `a{p: url(x;y)}` yields Declaration "p: url(x";
the colon-less remainder "y)" is not emitted as a Declaration but
becomes the text of the closing BlockEnd token. -/
theorem url_semicolon_truncates_declaration :
    lexGo (strBytes "a{p: url(x;y)}") =
      ([⟨ItemType.selector, 0, strBytes "a"⟩, ⟨ItemType.blockStart, 1, []⟩,
        ⟨ItemType.decl, 2, strBytes "p: url(x"⟩,
        ⟨ItemType.blockEnd, 11, strBytes "y)"⟩], true) := by
  decide

/-! ### Whitespace-and-comments inputs (claim C6) -/

theorem isSpaceByte_lt (b : Nat) (h : isSpaceByte b = true) : b < 128 := by
  simp [isSpaceByte] at h
  rcases h with ((rfl | rfl) | rfl) | rfl <;> omega

theorem isSpaceRune_ofNat (b : Nat) (h : isSpaceByte b = true) :
    isSpaceRune (Int.ofNat b) = true := by
  simp [isSpaceByte] at h
  rcases h with ((rfl | rfl) | rfl) | rfl <;> decide

/-- Reading one ASCII byte: `next` returns it as the rune and advances
`pos` by one byte. -/
theorem nextRune_cons_ascii {input : List Nat} {pos b : Nat}
    {rest : List Nat} (h : input.drop pos = b :: rest) (hb : b < 128) :
    nextRune input pos = (Int.ofNat b, pos + 1) := by
  have hlt : pos < input.length := by
    by_contra hge
    rw [List.drop_eq_nil_of_le (Nat.le_of_not_lt hge)] at h
    cases h
  simp only [nextRune, h]
  rw [if_neg (Nat.not_le.mpr hlt)]
  simp [decodeRune, hb]

theorem leadsWith_self_append (pat x : List Nat) :
    leadsWith pat (pat ++ x) = true := by
  induction pat with
  | nil => rfl
  | cons a t ih => simpa [leadsWith] using ih

/-- If the comment body contains no `*/`, the first `*/` of
`body ++ */ ++ rest` sits exactly at offset `body.length`. -/
theorem indexOfSub_body_close (body rest : List Nat)
    (h : indexOfSub body closeComment = none) :
    indexOfSub (body ++ closeComment ++ rest) closeComment =
      some body.length := by
  induction body with
  | nil => simp [indexOfSub, closeComment, leadsWith]
  | cons x t ih =>
    rw [indexOfSub] at h
    split at h
    · cases h
    · rename_i hlw
      have ht : indexOfSub t closeComment = none := by
        cases hval : indexOfSub t closeComment with
        | none => rfl
        | some v => rw [hval] at h; cases h
      have hgoal : leadsWith closeComment
          (x :: (t ++ (closeComment ++ rest))) = false := by
        cases t with
        | nil => simp [closeComment, leadsWith]
        | cons y t' =>
          by_cases hx : x = 42
          · by_cases hy : y = 47
            · exact absurd (by simp [closeComment, leadsWith, hx, hy]) hlw
            · simp [closeComment, leadsWith]
              exact fun _ h47 => hy h47.symm
          · simp [closeComment, leadsWith]
            exact fun h42 => absurd h42.symm hx
      rw [List.cons_append, List.cons_append, indexOfSub,
        if_neg (by simp [hgoal]), ih ht]
      simp

/-- `lexComment` over a well-formed comment followed by anything: the
cursor lands after the `*/`, the pending span is discarded, and control
returns to the previously active state. -/
theorem lexComment_blank (l : Lexer) (body rest : List Nat)
    (hdrop : l.input.drop l.pos =
      openComment ++ body ++ closeComment ++ rest)
    (hbody : indexOfSub body closeComment = none) :
    lexComment l =
      (({ l with
          pos := l.pos + 2 + body.length + 2,
          start := l.pos + 2 + body.length + 2 } : Lexer), l.state) := by
  have hdrop2 : l.input.drop (l.pos + 2) = body ++ closeComment ++ rest := by
    rw [← List.drop_drop, hdrop]
    simp only [List.append_assoc]
    exact List.drop_left' (by simp [openComment])
  simp only [lexComment]
  rw [show (({ l with pos := l.pos + 2 } : Lexer)).input.drop
      (({ l with pos := l.pos + 2 } : Lexer)).pos =
      body ++ closeComment ++ rest from hdrop2]
  rw [indexOfSub_body_close body rest hbody]
  rfl

/-- The `lexAny` loop on a whitespace-and-comments suffix: it either
terminates cleanly having emitted nothing, or stops at the opening of a
well-formed comment having emitted nothing. -/
theorem lexAnyAux_blank (suffix : List Nat) (hB : BlankInput suffix) :
    ∀ (gas : Nat) (l : Lexer), l.input.drop l.pos = suffix →
      l.pos ≤ l.input.length → l.inAtBlock = false →
      suffix.length + 1 ≤ gas →
      ((lexAnyAux gas l).2 = none ∧ (lexAnyAux gas l).1.items = l.items) ∨
      ((lexAnyAux gas l).2 = some S.comment ∧
        (lexAnyAux gas l).1.items = l.items ∧
        (lexAnyAux gas l).1.input = l.input ∧
        (lexAnyAux gas l).1.state = l.state ∧
        (lexAnyAux gas l).1.inAtBlock = false ∧
        (lexAnyAux gas l).1.pos ≤ l.input.length ∧
        ∃ body rest, l.input.drop (lexAnyAux gas l).1.pos =
            openComment ++ body ++ closeComment ++ rest ∧
          indexOfSub body closeComment = none ∧ BlankInput rest ∧
          body.length + rest.length + 4 ≤ suffix.length) := by
  induction hB with
  | nil =>
    intro gas l hdrop hle hflag hgas
    cases gas with
    | zero => omega
    | succ g =>
      left
      have hcond : l.input.length ≤ l.pos := List.drop_eq_nil_iff.mp hdrop
      constructor <;> simp [lexAnyAux, nextRune, hcond]
  | space b rest hb hBrest ih =>
    intro gas l hdrop hle hflag hgas
    cases gas with
    | zero => omega
    | succ g =>
      have hb128 : b < 128 := isSpaceByte_lt b hb
      have hnext : nextRune l.input l.pos = (Int.ofNat b, l.pos + 1) :=
        nextRune_cons_ascii hdrop hb128
      have hne : ¬ ((Int.ofNat b : Int) = -1) := by
        intro hcon
        have hnn : (0 : Int) ≤ Int.ofNat b := Int.ofNat_nonneg b
        omega
      have hsp : isSpaceRune (Int.ofNat b) = true := isSpaceRune_ofNat b hb
      have hposlt : l.pos < l.input.length := by
        by_contra hge
        rw [List.drop_eq_nil_of_le (Nat.le_of_not_lt hge)] at hdrop
        cases hdrop
      have hstep : lexAnyAux (g + 1) l =
          lexAnyAux g (({ l with pos := l.pos + 1 } : Lexer).ignore) := by
        simp only [lexAnyAux, hnext]
        rw [if_neg hne, if_pos hsp]
      have hdrop' : ((({ l with pos := l.pos + 1 } : Lexer).ignore)).input.drop
          ((({ l with pos := l.pos + 1 } : Lexer).ignore)).pos = rest := by
        show l.input.drop (l.pos + 1) = rest
        rw [← List.tail_drop, hdrop]
        rfl
      have h' := ih g (({ l with pos := l.pos + 1 } : Lexer).ignore) hdrop'
        (by show l.pos + 1 ≤ l.input.length; omega)
        (by show l.inAtBlock = false; exact hflag)
        (by simp at hgas ⊢; omega)
      rw [hstep]
      rcases h' with ⟨h1, h2⟩ | ⟨h1, h2, h3, h4, h5, h6, body, rest', h7, h8, h9, h10⟩
      · exact Or.inl ⟨h1, h2⟩
      · refine Or.inr ⟨h1, h2, h3, h4, h5, h6, body, rest', h7, h8, h9, ?_⟩
        simp at h10 ⊢
        omega
  | comment body rest hbody hBrest ih =>
    intro gas l hdrop hle hflag hgas
    cases gas with
    | zero => omega
    | succ g =>
      have hdrop47 : l.input.drop l.pos =
          47 :: 42 :: (body ++ closeComment ++ rest) := hdrop
      have hnext : nextRune l.input l.pos = (Int.ofNat 47, l.pos + 1) :=
        nextRune_cons_ascii hdrop47 (by omega)
      have hstep : lexAnyAux (g + 1) l =
          (({ l with pos := l.pos + 1 } : Lexer).backup, some S.comment) := by
        simp only [lexAnyAux, hnext]
        rw [if_neg (by decide : ¬ ((Int.ofNat 47 : Int) = -1)),
          if_neg (by decide : ¬ (isSpaceRune (Int.ofNat 47) = true)),
          if_neg (by simp : ¬ ((Int.ofNat 47 : Int) = 125 ∧
            ({ l with pos := l.pos + 1 } : Lexer).inAtBlock = true ∧
            ({ l with pos := l.pos + 1 } : Lexer).inBlock = false)),
          if_pos (show leadsWith openComment
            (((({ l with pos := l.pos + 1 } : Lexer).backup)).input.drop
              ((({ l with pos := l.pos + 1 } : Lexer).backup)).pos) = true from by
            show leadsWith openComment (l.input.drop (l.pos + 1 - 1)) = true
            rw [Nat.add_sub_cancel, hdrop47]
            simp [openComment, leadsWith])]
      rw [hstep]
      right
      refine ⟨rfl, rfl, rfl, rfl, ?_, ?_, body, rest, ?_, hbody, hBrest, ?_⟩
      · show l.inAtBlock = false
        exact hflag
      · show l.pos + 1 - 1 ≤ l.input.length
        omega
      · show l.input.drop (l.pos + 1 - 1) =
          openComment ++ body ++ closeComment ++ rest
        rw [Nat.add_sub_cancel]
        exact hdrop
      · simp [openComment, closeComment]
        omega

/-- Driving the machine from the Any state over a whitespace-and-comments
suffix terminates with no items added, given fuel beyond the suffix
length. -/
theorem runLoop_blank (n : Nat) : ∀ (suffix : List Nat), suffix.length ≤ n →
    BlankInput suffix → ∀ (l : Lexer) (fuel : Nat),
    l.input.drop l.pos = suffix → l.pos ≤ l.input.length →
    l.inAtBlock = false → suffix.length + 1 ≤ fuel →
    runLoop fuel (some S.any) l = (l.items, true) := by
  induction n with
  | zero =>
    intro suffix hlen hB l fuel hdrop hle hflag hfuel
    have hsuf : suffix = [] := List.length_eq_zero.mp (Nat.le_zero.mp hlen)
    subst hsuf
    cases fuel with
    | zero => omega
    | succ f =>
      have hstep := lexAnyAux_blank [] hB (l.input.length + 2) l hdrop hle
        hflag (by omega)
      rcases hstep with ⟨h1, h2⟩ | ⟨_, _, _, _, _, _, body, rest, _, _, _, h10⟩
      · show runLoop f (stepState S.any l).2
          { (stepState S.any l).1 with state := some S.any } = _
        have h1' : (stepState S.any l).2 = none := h1
        have h2' : (stepState S.any l).1.items = l.items := h2
        rw [h1']
        cases f <;> simp [runLoop, h2']
      · omega
  | succ n ih =>
    intro suffix hlen hB l fuel hdrop hle hflag hfuel
    cases fuel with
    | zero => omega
    | succ f =>
      have hgas : suffix.length + 1 ≤ l.input.length + 2 := by
        have := congrArg List.length hdrop
        simp [List.length_drop] at this
        omega
      have hstep := lexAnyAux_blank suffix hB (l.input.length + 2) l hdrop hle
        hflag hgas
      rcases hstep with ⟨h1, h2⟩ |
        ⟨h1, h2, h3, h4, h5, h6, body, rest, h7, h8, h9, h10⟩
      · show runLoop f (stepState S.any l).2
          { (stepState S.any l).1 with state := some S.any } = _
        have h1' : (stepState S.any l).2 = none := h1
        have h2' : (stepState S.any l).1.items = l.items := h2
        rw [h1']
        cases f <;> simp [runLoop, h2']
      · cases f with
        | zero =>
          have : suffix.length ≥ 4 := by omega
          omega
        | succ f' =>
          show runLoop (f' + 1) (stepState S.any l).2
            { (stepState S.any l).1 with state := some S.any } = _
          have h1' : (stepState S.any l).2 = some S.comment := h1
          rw [h1']
          set l2 : Lexer :=
            { (stepState S.any l).1 with state := some S.any } with hl2
          have hinp : l2.input = l.input := h3
          have hcdrop : l2.input.drop l2.pos =
              openComment ++ body ++ closeComment ++ rest := by
            rw [hinp]
            exact h7
          have hccall := lexComment_blank l2 body rest hcdrop h8
          show runLoop f' (stepState S.comment l2).2
            { (stepState S.comment l2).1 with state := some S.comment } = _
          have hccall' : stepState S.comment l2 =
              (({ l2 with
                  pos := l2.pos + 2 + body.length + 2,
                  start := l2.pos + 2 + body.length + 2 } : Lexer),
                l2.state) := hccall
          rw [hccall']
          have hlen4 : l.input.length - l2.pos =
              body.length + rest.length + 4 := by
            have hthis := congrArg List.length hcdrop
            rw [List.length_drop, hinp] at hthis
            simp only [List.length_append, openComment, closeComment,
              List.length_cons, List.length_nil] at hthis
            have hpos2 : l2.pos = (stepState S.any l).1.pos := rfl
            omega
          have hdrop3 : l.input.drop (l2.pos + 2 + body.length + 2) = rest := by
            have harith : l2.pos + 2 + body.length + 2 =
                l2.pos + (body.length + 4) := by omega
            rw [harith, ← List.drop_drop]
            rw [show l.input.drop l2.pos =
              openComment ++ body ++ closeComment ++ rest from by
              rw [← hinp]; exact hcdrop]
            exact List.drop_left' (by simp [openComment, closeComment])
          have hple : l2.pos ≤ l.input.length := h6
          have hfin := ih rest (by omega) h9
            ({ ({ l2 with
                pos := l2.pos + 2 + body.length + 2,
                start := l2.pos + 2 + body.length + 2 } : Lexer) with
              state := some S.comment } : Lexer) f'
            (by show l2.input.drop (l2.pos + 2 + body.length + 2) = rest
                rw [hinp]
                exact hdrop3)
            (by show l2.pos + 2 + body.length + 2 ≤ l2.input.length
                have hlen' : l2.input.length = l.input.length := by rw [hinp]
                omega)
            (by show l2.inAtBlock = false
                exact h5)
            (by omega)
          show runLoop f' (some S.any)
            ({ ({ l2 with
                pos := l2.pos + 2 + body.length + 2,
                start := l2.pos + 2 + body.length + 2 } : Lexer) with
              state := some S.comment } : Lexer) = (l.items, true)
          rw [hfin]
          have hitems : (({ ({ l2 with
              pos := l2.pos + 2 + body.length + 2,
              start := l2.pos + 2 + body.length + 2 } : Lexer) with
            state := some S.comment } : Lexer)).items = l.items := h2
          rw [hitems]

/-- C6: every input consisting only of space characters and properly
closed `/* ... */` comments produces no tokens at all: the run
terminates with an empty output stream and no Error. -/
theorem blank_input_no_tokens (bs : List Nat) (h : BlankInput bs) :
    lexGo bs = ([], true) := by
  have hrun := runLoop_blank bs.length bs le_rfl h (initLexer bs) (lexFuel bs)
    (by simp [initLexer]) (by simp [initLexer]) rfl
    (by simp only [lexFuel]; omega)
  simpa [lexGo, initLexer] using hrun

/-- C6 witness: the input ` /*c*/\t` (a space, a comment, a tab) is a
whitespace-and-comments input, and lexing it yields no tokens. -/
theorem blank_input_witness :
    BlankInput [32, 47, 42, 99, 42, 47, 9] ∧
    lexGo [32, 47, 42, 99, 42, 47, 9] = ([], true) := by
  have hB : BlankInput [32, 47, 42, 99, 42, 47, 9] := by
    refine BlankInput.space 32 _ (by decide) ?_
    exact BlankInput.comment [99] [9] (by decide)
      (BlankInput.space 9 [] (by decide) BlankInput.nil)
  exact ⟨hB, blank_input_no_tokens _ hB⟩

end Csslex
